import Mathlib

/-!
Verification of the lease-contract analysis pipeline
(repository `Revanth-157/InfosysSpringBoardInternship`).

This file gives a shallow embedding, in Lean 4, of the pure algorithmic
core of the repository:

* `chunk_text` (Tokenization.py:82-84, streamlit_app.py:86-92),
* the FAISS top-K retrieval step and context-assembly loop
  (Tokenization.py:99-116, streamlit_app.py:105-122),
* `extract_vins_from_text`, `extract_vehicle_info`,
  `extract_full_lease_fields` (vehicle_enrichment.py),
* `analyze_contract_fairness` (contract_fairness_analysis.py).

Python strings are modelled as Lean `String`/`List Char`, Python floats as
`ℚ` (every numeric literal in these code paths is decimal and the code does
only comparisons, additions and multiplication by decimal constants, all of
which are exact in ℚ), Python `int` as `ℤ`/`ℕ`, Python `None`-able values as
`Option`, and heterogeneous Python dict values as the inductive `PyVal`.
Network collaborators (NHTSA decode / recall lookup, LLM endpoints) are
passed in as oracle parameters; the guards surrounding the calls are
translated from the source.  The regular expressions used by the extractors
are executed by a small backtracking matcher (`REx.mall`) whose alternative
order coincides with Python `re`'s backtracking priority for the pattern
combinators that actually occur in the source (literals, character classes,
greedy/lazy `*` `+` `?` `{m,n}`, alternation, one capture group).
-/

namespace Lease

/-! ## Python string primitives -/

/-- ASCII whitespace as recognised by Python's `str.split()` / `str.strip()`
and by the regex class `\s` (space, tab, newline, carriage return,
vertical tab, form feed). -/
def pyIsSpace (c : Char) : Bool :=
  c = ' ' || c = '\t' || c = '\n' || c = '\r' || c = '\x0b' || c = '\x0c'

/-- Worker for `pySplitL`: `acc` is the current in-progress word, reversed. -/
def splitAux : List Char → List Char → List (List Char)
  | [], acc => if acc = [] then [] else [acc.reverse]
  | c :: cs, acc =>
    if pyIsSpace c then
      if acc = [] then splitAux cs [] else acc.reverse :: splitAux cs []
    else
      splitAux cs (c :: acc)

/-- Python `text.split()` (no separator: split on runs of whitespace,
discarding empty fields), at the character-list level. -/
def pySplitL (cs : List Char) : List (List Char) := splitAux cs []

/-- Python `text.split()` on `String`. -/
def pySplit (s : String) : List String := (pySplitL s.data).map String.mk

/-- Python `" ".join(ws)` at the character-list level. -/
def joinL : List (List Char) → List Char
  | [] => []
  | [w] => w
  | w :: w₂ :: ws => w ++ ' ' :: joinL (w₂ :: ws)

/-- Python `" ".join(ws)`. -/
def pyJoinSpace (ws : List String) : String := String.mk (joinL (ws.map String.data))

/-- Python `s.strip()` (both-ends whitespace strip). -/
def pyStripL (cs : List Char) : List Char :=
  ((cs.dropWhile pyIsSpace).reverse.dropWhile pyIsSpace).reverse

/-- Python `s.strip()` on `String`. -/
def pyStrip (s : String) : String := String.mk (pyStripL s.data)

/-- Python `s.upper()` (ASCII relevant range). -/
def pyUpper (s : String) : String := String.mk (s.data.map Char.toUpper)

/-- Python `s.lower()` (ASCII relevant range). -/
def pyLower (s : String) : String := String.mk (s.data.map Char.toLower)

/-! ## Chunker

`chunk_text(text, chunk_size=120)` from Tokenization.py:82-84 (an identical
copy lives in streamlit_app.py:86-92):

```python
def chunk_text(text, chunk_size=120):
    words = text.split()
    return [" ".join(words[i:i + chunk_size])
            for i in range(0, len(words), chunk_size)
            if len(words[i:i + chunk_size]) > 20]
```

Both call sites use the default `chunk_size=120`, which is what is embedded
here.  `chunkWindows` produces the windows `words[i:i+120]` for
`i in range(0, len(words), 120)`; the comprehension then filters them by
word count and joins each with single spaces. -/

/-- The successive 120-word windows `words[i:i+120]`, `i = 0, 120, 240, …`. -/
def chunkWindows {α : Type} : List α → List (List α)
  | [] => []
  | w :: ws => ((w :: ws).take 120) :: chunkWindows ((w :: ws).drop 120)
termination_by l => l.length
decreasing_by simp [List.length_drop]; omega

/-- The windows that survive the `len(...) > 20` filter, as word lists. -/
def chunkWordLists (text : String) : List (List String) :=
  (chunkWindows (pySplit text)).filter (fun w => 20 < w.length)

/-- `chunk_text(text)` (default `chunk_size=120`). -/
def chunk_text (text : String) : List String :=
  (chunkWordLists text).map pyJoinSpace

/-! ## Top-K retrieval and context assembly

Tokenization.py:95-116 / streamlit_app.py:102-122 build a
`faiss.IndexFlatL2`, add one embedding per chunk, and run
`index.search(query_embedding, TOP_K)`.  The embedding model is an external
collaborator, so the search step is modelled as a function of the list of
(squared L2) distances `dists` between the query and each chunk vector, with
`dists[i]` the distance of chunk `i`.

`IndexFlatL2.search(q, k)` returns, per its documentation, the `k` nearest
database vectors in ascending distance order; when the index holds fewer
than `k` vectors, the result arrays are padded with label `-1`.  The model
sorts the `(index, distance)` pairs by distance with a stable sort
(ties keep insertion order; no property proved here depends on the
tie-break), takes `k`, and pads with `-1` to length `k`.

The retrieval loop (Tokenization.py:108-115) is

```python
for i in indices[0]:
    chunk = chunks[i]
    if any(k in chunk.lower() for k in KEYWORDS):
        words = chunk.split()
        if word_count + len(words) > MAX_CONTEXT_WORDS: break
        context_chunks.append(chunk)
        word_count += len(words)
```

streamlit_app.py:114-121 is the same loop without the keyword filter
(i.e. with the always-true predicate).  Note `chunks[i]` uses Python list
indexing, where index `-1` denotes the *last* element. -/

/-- Distance order on (index, distance) pairs. -/
def distLE (a b : ℕ × ℚ) : Prop := a.2 ≤ b.2

instance : DecidableRel distLE := fun a b => inferInstanceAs (Decidable (a.2 ≤ b.2))

instance : IsTotal (ℕ × ℚ) distLE := ⟨fun a b => le_total a.2 b.2⟩

instance : IsTrans (ℕ × ℚ) distLE := ⟨fun _ _ _ h h' => le_trans h h'⟩

/-- The `k` nearest (index, distance) pairs, ascending by distance. -/
def faissTop (dists : List ℚ) (k : ℕ) : List (ℕ × ℚ) :=
  (dists.enum.insertionSort distLE).take k

/-- `index.search(query, k)`: the row `indices[0]` of result labels, padded
with `-1` to length `k` when fewer than `k` vectors are indexed. -/
def faissSearch (dists : List ℚ) (k : ℕ) : List ℤ :=
  let top := (faissTop dists k).map (fun p => (p.1 : ℤ))
  top ++ List.replicate (k - top.length) (-1)

/-- Python list indexing `xs[i]`: a negative index counts from the end;
an out-of-range index raises `IndexError`, modelled as `none` (never reached
by the indices FAISS returns on a non-empty index). -/
def pyGet (xs : List α) (i : ℤ) : Option α :=
  if 0 ≤ i then xs.get? i.toNat else xs.get? (xs.length - (-i).toNat)

/-- The keyword list of Tokenization.py:104. -/
def KEYWORDS : List String :=
  ["payment", "fee", "penalty", "termination", "mileage", "insurance",
   "cost", "deposit", "charge"]

/-- Substring containment, Python `needle in hay`. -/
def containsSub (hay needle : List Char) : Bool :=
  match hay with
  | [] => needle = []
  | _ :: rest => needle.isPrefixOf hay || containsSub rest needle

/-- The keyword filter `any(k in chunk.lower() for k in KEYWORDS)`. -/
def keywordPred (chunk : String) : Bool :=
  KEYWORDS.any (fun k => containsSub (chunk.data.map Char.toLower) k.data)

/-- The context-accumulation loop over the already-indexed chunks, with the
running word count `wc`; `pred` is the keyword filter (always-true in
streamlit_app.py).  Returning `[]` at the budget test models `break`. -/
def buildContext (pred : String → Bool) (maxW : ℕ) : List String → ℕ → List String
  | [], _ => []
  | c :: rest, wc =>
    if pred c then
      if maxW < wc + (pySplit c).length then []
      else c :: buildContext pred maxW rest (wc + (pySplit c).length)
    else
      buildContext pred maxW rest wc

/-- The full retrieval step: search, index into `chunks` (Python indexing),
then run the context loop; the selected chunks are finally joined with
`"\n\n"`. -/
def retrieveChunks (pred : String → Bool) (chunks : List String) (dists : List ℚ)
    (k maxW : ℕ) : List String :=
  buildContext pred maxW ((faissSearch dists k).filterMap (pyGet chunks)) 0

/-- `"\n\n".join` at the character level. -/
def joinNL : List (List Char) → List Char
  | [] => []
  | [w] => w
  | w :: w₂ :: ws => w ++ '\n' :: '\n' :: joinNL (w₂ :: ws)

/-- `context = "\n\n".join(context_chunks)`. -/
def joinContext (cs : List String) : String :=
  String.mk (joinNL (cs.map String.data))

/-! ## Regular expressions

A small backtracking regex engine covering exactly the constructs used by
the patterns in contract_fairness_analysis.py and vehicle_enrichment.py:
case-insensitive literals (all patterns are compiled with `re.I`),
character classes, greedy and lazy `*`, greedy `?`, alternation, and a
single capture group.  `mall` enumerates the matches at the start of the
input in Python `re`'s backtracking priority order (so `(mall …).head?` is
the match `re` picks); `research` scans positions left to right like
`re.search`.  `\b` does not occur in these patterns (the VIN pattern, which
uses it, has a dedicated scanner below). -/

inductive REx where
  | eps
  | cls (p : Char → Bool)
  | seq (a b : REx)
  | alt (a b : REx)
  | star (greedy : Bool) (a : REx)
  | opt (greedy : Bool) (a : REx)
  | group (a : REx)

/-- Zero-or-more iterations of a subpattern matcher `f`, in greedy
(`g = true`: iterate first, stop last) or lazy priority order.  `fuel`
bounds the number of further iterations; zero-width iterations are cut off,
so on a suffix of length `n` at most `n` iterations can occur and the
callers' `fuel = n + 1` never truncates — the bound only makes the
recursion structural. -/
def starMatches : ℕ → (List Char → List (ℕ × Option (List Char))) → Bool →
    List Char → List (ℕ × Option (List Char))
  | 0, _, _, _ => [(0, none)]
  | fuel + 1, f, g, s =>
    let more := (f s).flatMap fun nc =>
      if nc.1 = 0 then []
      else
        (starMatches fuel f g (s.drop nc.1)).map fun mc =>
          (nc.1 + mc.1, nc.2.orElse fun _ => mc.2)
    if g then more ++ [(0, none)] else (0, none) :: more

/-- All matches of `r` at the start of `s`, as (consumed length, group-1
capture) in backtracking priority order — `(mall r s).head?` is the match
Python `re` picks at this position. -/
def mall : REx → List Char → List (ℕ × Option (List Char))
  | .eps, _ => [(0, none)]
  | .cls p, s =>
    match s with
    | [] => []
    | c :: _ => if p c then [(1, none)] else []
  | .seq a b, s =>
    (mall a s).flatMap fun nc =>
      (mall b (s.drop nc.1)).map fun mc =>
        (nc.1 + mc.1, nc.2.orElse fun _ => mc.2)
  | .alt a b, s => mall a s ++ mall b s
  | .star g a, s => starMatches (s.length + 1) (mall a) g s
  | .opt g a, s =>
    if g then mall a s ++ [(0, none)] else (0, none) :: mall a s
  | .group a, s =>
    (mall a s).map fun nc => (nc.1, some (s.take nc.1))

/-- `re.search(r, s)`: `none` when there is no match anywhere, otherwise
`some` of the group-1 capture of the leftmost highest-priority match
(`some none` for a match of a pattern without a group). -/
def research (r : REx) : List Char → Option (Option (List Char))
  | [] =>
    match (mall r []).head? with
    | some nc => some nc.2
    | none => none
  | c :: rest =>
    match (mall r (c :: rest)).head? with
    | some nc => some nc.2
    | none => research r rest

/-- `m.group(1) if m else None` — the raw capture, as used by
`extract_year_from_text` / `extract_odometer_from_text`. -/
def regexSearchRaw (r : REx) (s : String) : Option String :=
  match research r s.data with
  | some cap => some (String.mk (cap.getD []))
  | none => none

/-- `m.group(1).strip() if m else None` — as used by `_find`
(contract_fairness_analysis.py:46-48) and `_regex_search`
(vehicle_enrichment.py:180-182). -/
def regexSearch1 (r : REx) (s : String) : Option String :=
  (regexSearchRaw r s).map pyStrip

/-- Python `a or b` on `Optional[str]` operands: `None` and `""` are falsy. -/
def pyOrS (a b : Option String) : Option String :=
  match a with
  | some s => if s = "" then b else some s
  | none => b

/-- Case-insensitive literal character (`re.I` is set on every pattern). -/
def chCI (c : Char) : REx := .cls fun x => x.toLower = c.toLower

/-- Case-insensitive literal string. -/
def strCI (w : String) : REx := w.data.foldr (fun c r => .seq (chCI c) r) .eps

/-- Sequence of several subpatterns. -/
def seqs (rs : List REx) : REx := rs.foldr .seq .eps

/-- The class `\s`. -/
def wsCls : REx := .cls pyIsSpace

/-- The class `\d`. -/
def digitCls : REx := .cls Char.isDigit

/-- Greedy `r+`. -/
def plus (r : REx) : REx := .seq r (.star true r)

/-- Greedy `r{0,n}`. -/
def repUpTo : ℕ → REx → REx
  | 0, _ => .eps
  | n + 1, r => .opt true (.seq r (repUpTo n r))

/-- Greedy `r{1,n+1}`. -/
def rep1UpTo (n : ℕ) (r : REx) : REx := .seq r (repUpTo n r)

/-- Exactly `n` copies of `r`. -/
def repN (n : ℕ) (r : REx) : REx := seqs (List.replicate n r)

/-- The class `[:\s\$]`. -/
def colonSpDollar : REx := .cls fun c => c = ':' || pyIsSpace c || c = '$'

/-- The class `[\d,]`. -/
def digitComma : REx := .cls fun c => c.isDigit || c = ','

/-- The class `[\d\.]`. -/
def digitDot : REx := .cls fun c => c.isDigit || c = '.'

/-- The money capture `([\d,]+\.?\d*)`. -/
def numGroup : REx :=
  .group (seqs [plus digitComma, .opt true (.cls fun c => c = '.'), .star true digitCls])

/-- `Monthly\s+Payment[:\s\$]*([\d,]+\.?\d*)`. -/
def reMonthly1 : REx :=
  seqs [strCI "Monthly", plus wsCls, strCI "Payment", .star true colonSpDollar, numGroup]

/-- `monthly lease payment of\s*\$?([\d,]+\.?\d*)`. -/
def reMonthly2 : REx :=
  seqs [strCI "monthly lease payment of", .star true wsCls,
        .opt true (.cls fun c => c = '$'), numGroup]

/-- `security deposit[:\s\$]*([\d,]+\.?\d*)`. -/
def reDeposit : REx := seqs [strCI "security deposit", .star true colonSpDollar, numGroup]

/-- `late fee[:\s\$]*([\d,]+\.?\d*)`. -/
def reLateFee : REx := seqs [strCI "late fee", .star true colonSpDollar, numGroup]

/-- `(\d{1,6})\s*miles\s*per\s*year`. -/
def reMileage1 : REx :=
  seqs [.group (rep1UpTo 5 digitCls), .star true wsCls, strCI "miles",
        .star true wsCls, strCI "per", .star true wsCls, strCI "year"]

/-- `maximum of\s*(\d{1,6})\s*miles per year`. -/
def reMileage2 : REx :=
  seqs [strCI "maximum of", .star true wsCls, .group (rep1UpTo 5 digitCls),
        .star true wsCls, strCI "miles per year"]

/-- `excess mileage.*?\$([\d\.]+)` (`.` does not match a newline). -/
def reExcess1 : REx :=
  seqs [strCI "excess mileage", .star false (.cls fun c => c ≠ '\n'),
        .cls (fun c => c = '$'), .group (plus digitDot)]

/-- `charged at a rate of\s*\$?([\d\.]+)\s*per mile`. -/
def reExcess2 : REx :=
  seqs [strCI "charged at a rate of", .star true wsCls,
        .opt true (.cls fun c => c = '$'), .group (plus digitDot),
        .star true wsCls, strCI "per mile"]

/-- `early termination|termination fee|early terminate`. -/
def reEarlyTerm : REx :=
  .alt (strCI "early termination") (.alt (strCI "termination fee") (strCI "early terminate"))

/-- `gap insurance`. -/
def reGapIns : REx := strCI "gap insurance"

/-- The class `[A-Za-z\s]`. -/
def alphaSp : REx := .cls fun c => c.isAlpha || pyIsSpace c

/-- The class `[A-Za-z0-9\s]` (also `[A-Z0-9\s]` under `re.I`). -/
def alnumSp : REx := .cls fun c => c.isAlphanum || pyIsSpace c

/-- `Make:\s*([A-Za-z\s]+)`. -/
def reMake : REx := seqs [strCI "Make:", .star true wsCls, .group (plus alphaSp)]

/-- `Make[:\s]*([A-Za-z\s]+)`. -/
def reMakeF : REx :=
  seqs [strCI "Make", .star true (.cls fun c => c = ':' || pyIsSpace c), .group (plus alphaSp)]

/-- `Model:\s*([A-Za-z0-9\s]+)`. -/
def reModel : REx := seqs [strCI "Model:", .star true wsCls, .group (plus alnumSp)]

/-- `Model[:\s]*([A-Za-z0-9\s]+)`. -/
def reModelF : REx :=
  seqs [strCI "Model", .star true (.cls fun c => c = ':' || pyIsSpace c), .group (plus alnumSp)]

/-- `Year:\s*(\d{4})`. -/
def reYear : REx := seqs [strCI "Year:", .star true wsCls, .group (repN 4 digitCls)]

/-- `Year[:\s]*(\d{4})`. -/
def reYearF : REx :=
  seqs [strCI "Year", .star true (.cls fun c => c = ':' || pyIsSpace c),
        .group (repN 4 digitCls)]

/-- `Color:\s*([A-Za-z\s]+)`. -/
def reColor : REx := seqs [strCI "Color:", .star true wsCls, .group (plus alphaSp)]

/-- `Color[:\s]*([A-Za-z\s]+)`. -/
def reColorF : REx :=
  seqs [strCI "Color", .star true (.cls fun c => c = ':' || pyIsSpace c), .group (plus alphaSp)]

/-- `License Plate Number:\s*([A-Z0-9\s]+)`. -/
def reLicense : REx :=
  seqs [strCI "License Plate Number:", .star true wsCls, .group (plus alnumSp)]

/-- `License Plate(?: Number)?[:\s]*([A-Z0-9\s]+)`. -/
def reLicenseF : REx :=
  seqs [strCI "License Plate", .opt true (strCI " Number"),
        .star true (.cls fun c => c = ':' || pyIsSpace c), .group (plus alnumSp)]

/-- `Odometer Reading at Lease Commencement:\s*(\d+)\s*miles`. -/
def reOdometer : REx :=
  seqs [strCI "Odometer Reading at Lease Commencement:", .star true wsCls,
        .group (plus digitCls), .star true wsCls, strCI "miles"]

/-- `Odometer(?: Reading)?(?: at Lease Commencement)?:?\s*(\d+)`. -/
def reOdometerF : REx :=
  seqs [strCI "Odometer", .opt true (strCI " Reading"),
        .opt true (strCI " at Lease Commencement"), .opt true (.cls fun c => c = ':'),
        .star true wsCls, .group (plus digitCls)]

/-! ## Python values, dicts and number parsing -/

/-- Heterogeneous Python values as stored in the extraction dicts. -/
inductive PyVal where
  | pnone
  | str (s : String)
  | num (q : ℚ)
  | list (xs : List PyVal)
  | dict (kvs : List (String × PyVal))

/-- Python truthiness for the value shapes above (`None`, `""`, `0`, empty
collections are falsy). -/
def pyTruthy : PyVal → Bool
  | .pnone => false
  | .str s => !(s == "")
  | .num q => decide (q ≠ 0)
  | .list xs => !xs.isEmpty
  | .dict kvs => !kvs.isEmpty

/-- `v is None`. -/
def isPNone : PyVal → Bool
  | .pnone => true
  | _ => false

/-- An insertion-ordered Python dict. -/
abbrev PyDict := List (String × PyVal)

/-- Key membership `k in d`. -/
def dHas (d : PyDict) (k : String) : Bool := d.any fun p => p.1 == k

/-- `d.get(k)`: the value at the (unique) occurrence of `k`, `None` when
the key is absent. -/
def dGet : PyDict → String → PyVal
  | [], _ => .pnone
  | (k', v') :: rest, k => if k' == k then v' else dGet rest k

/-- Assignment `d[k] = v`: updates the existing entry in place, or appends
a new entry preserving insertion order. -/
def dSet : PyDict → String → PyVal → PyDict
  | [], k, v => [(k, v)]
  | (k', v') :: rest, k, v =>
    if k' == k then (k, v) :: rest else (k', v') :: dSet rest k v

/-- `d.setdefault(k, v)`: a no-op whenever the key is already present,
even when its current value is `None`. -/
def dSetdefault : PyDict → String → PyVal → PyDict
  | [], k, v => [(k, v)]
  | (k', v') :: rest, k, v =>
    if k' == k then (k', v') :: rest else (k', v') :: dSetdefault rest k v

/-- Python `a or b` on arbitrary values. -/
def pyOr (a b : PyVal) : PyVal := if pyTruthy a then a else b

/-- `r.get(k)` where `r` may not be a dict (non-dicts never occur on the
executed paths; modelled as `None`). -/
def pyGetD : PyVal → String → PyVal
  | .dict d, k => dGet d k
  | _, _ => .pnone

/-- Lift an `Optional[str]` into a `PyVal`. -/
def toVal : Option String → PyVal
  | none => .pnone
  | some s => .str s

/-- Unsigned decimal value of a digit list. -/
def natOfDigits (cs : List Char) : ℕ :=
  cs.foldl (fun n c => 10 * n + (c.toNat - '0'.toNat)) 0

/-- Python `float(s)` restricted to the strings that can reach it here
(digits, dots and nothing else after `$`/`,` removal and strip): an
optional integer part, an optional dot, an optional fraction part, at
least one digit overall; anything else raises, modelled as `none`. -/
def pyFloatOfChars (cs : List Char) : Option ℚ :=
  let intPart := cs.takeWhile Char.isDigit
  let rest := cs.dropWhile Char.isDigit
  match rest with
  | [] => if intPart.isEmpty then none else some (natOfDigits intPart)
  | '.' :: frac =>
    if frac.all Char.isDigit && !(intPart.isEmpty && frac.isEmpty) then
      some ((natOfDigits intPart : ℚ) + (natOfDigits frac : ℚ) / (10 : ℚ) ^ frac.length)
    else none
  | _ => none

/-- `_safe_float` (contract_fairness_analysis.py:28-34):
`float(str(value).replace('$', '').replace(',', '').strip())`, `None` on
failure. -/
def safeFloat : Option String → Option ℚ
  | none => none
  | some s => pyFloatOfChars (pyStripL (s.data.filter fun c => !(c = '$' || c = ',')))

/-- `int(ma.replace(',', ''))` guarded by `if ma:` and `try`/`except`
(contract_fairness_analysis.py:54-59); the captures that reach it are pure
digit strings. -/
def mileageOf : Option String → Option ℤ
  | none => none
  | some s =>
    if s = "" then none
    else
      let cs := s.data.filter fun c => c ≠ ','
      if !cs.isEmpty && cs.all Char.isDigit then some (natOfDigits cs) else none

/-! ## VIN extraction (vehicle_enrichment.py:12-30)

`extract_vins_from_text` runs
`re.findall(r"\b([A-HJ-NPR-Z0-9]{17})\b", text.upper())` and deduplicates
preserving first-seen order.  `findall` is modelled by a left-to-right
scanner: at each position it requires a word boundary on the left (the
previous character, if any, is not a word character), seventeen VIN-alphabet
characters, and a word boundary on the right; after a match it resumes past
the matched characters, otherwise it advances one character. -/

/-- Regex word characters (`\w`, ASCII range — sufficient for the VIN
alphabet, which is ASCII). -/
def isWordChar (c : Char) : Bool := c.isAlphanum || c = '_'

/-- The VIN character class `[A-HJ-NPR-Z0-9]`: uppercase letters except
I, O, Q, and digits. -/
def isVinChar (c : Char) : Bool :=
  (('A' ≤ c && c ≤ 'Z') && !(c = 'I' || c = 'O' || c = 'Q')) || c.isDigit

/-- A `\b` boundary against the adjacent character (`none` = string edge);
valid because the matched characters are all word characters. -/
def boundaryOK : Option Char → Bool
  | none => true
  | some c => !isWordChar c

/-- Candidate check: exactly 17 VIN characters. -/
def vinCand (cs : List Char) : Bool := cs.length == 17 && cs.all isVinChar

/-- The `findall` scan; `prev` is the character before the current
position.  Each step consumes at least one character, so the remaining
string length bounds the number of steps and the callers' `fuel = length`
never truncates — the fuel only makes the recursion structural. -/
def vinScan : ℕ → Option Char → List Char → List (List Char)
  | 0, _, _ => []
  | _ + 1, _, [] => []
  | fuel + 1, prev, c :: cs =>
    if boundaryOK prev && vinCand ((c :: cs).take 17)
        && boundaryOK ((c :: cs).drop 17).head? then
      (c :: cs).take 17 :: vinScan fuel (((c :: cs).take 17).getLast?) ((c :: cs).drop 17)
    else
      vinScan fuel (some c) cs

/-- The dedup loop of vehicle_enrichment.py:24-29 (`seen` set +
first-seen-order list). -/
def dedupFirst (seen : List (List Char)) : List (List Char) → List (List Char)
  | [] => []
  | v :: vs => if v ∈ seen then dedupFirst seen vs else v :: dedupFirst (v :: seen) vs

/-- The full `findall` match sequence of the VIN pattern over the
uppercased text. -/
def vinMatches (text : String) : List (List Char) :=
  vinScan (pyUpper text).data.length none (pyUpper text).data

/-- `extract_vins_from_text(text)`. -/
def extract_vins_from_text (text : String) : List String :=
  if text = "" then []
  else (dedupFirst [] (vinMatches text)).map String.mk

/-! ## NHTSA enrichment (vehicle_enrichment.py:75-174, 247-272)

The two network collaborators are oracle parameters: `DecodeOracle` is the
NHTSA VPIC decode (the HTTP call, status check, JSON parse and
`Results[0]` selection of decode_vin_nhtsa — any failure is `none`);
`RecallOracle` is the recall lookup (URL formatting with `.upper()` /
`str()` absorbed; non-list or failed results are `none`). -/

abbrev DecodeOracle := String → Option PyDict

abbrev RecallOracle := PyVal → PyVal → PyVal → Option (List PyVal)

/-- `decode_vin_nhtsa(vin)`: the input guard and the `out["VIN"] = vin`
post-step are repository code; the network part is the oracle. -/
def decode_vin_nhtsa (net : DecodeOracle) (vin : String) : Option PyDict :=
  if vin = "" || vin.length ≠ 17 then none
  else
    match net vin with
    | none => none
    | some r => some (dSet r "VIN" (.str vin))

/-- `get_vehicle_recalls(make, model, year)`: the truthiness guard is
repository code; the network part is the oracle. -/
def get_vehicle_recalls (net : RecallOracle) (make model year : PyVal) :
    Option (List PyVal) :=
  if pyTruthy make && pyTruthy model && pyTruthy year then net make model year
  else none

/-- `extract_make_from_text` (vehicle_enrichment.py:33-37). -/
def extract_make_from_text (t : String) : Option String := regexSearch1 reMake t

/-- `extract_model_from_text` (vehicle_enrichment.py:40-44). -/
def extract_model_from_text (t : String) : Option String := regexSearch1 reModel t

/-- `extract_year_from_text` (vehicle_enrichment.py:47-51; no `.strip()`). -/
def extract_year_from_text (t : String) : Option String := regexSearchRaw reYear t

/-- `extract_color_from_text` (vehicle_enrichment.py:54-58). -/
def extract_color_from_text (t : String) : Option String := regexSearch1 reColor t

/-- `extract_license_plate_from_text` (vehicle_enrichment.py:61-65). -/
def extract_license_plate_from_text (t : String) : Option String :=
  regexSearch1 reLicense t

/-- `extract_odometer_from_text` (vehicle_enrichment.py:68-72; no
`.strip()`). -/
def extract_odometer_from_text (t : String) : Option String :=
  regexSearchRaw reOdometer t

/-- The string payload of a `PyVal` known to be a `str`. -/
def getStr : PyVal → String
  | .str s => s
  | _ => ""

/-- `extract_vehicle_info(text, use_nhtsa=True)`
(vehicle_enrichment.py:132-174). -/
def extract_vehicle_info (dec : DecodeOracle) (rec : RecallOracle) (text : String)
    (use_nhtsa : Bool := true) : PyDict :=
  let result : PyDict :=
    [("make", toVal (extract_make_from_text text)),
     ("model", toVal (extract_model_from_text text)),
     ("year", toVal (extract_year_from_text text)),
     ("color", toVal (extract_color_from_text text)),
     ("vin", .pnone),
     ("license_plate", toVal (extract_license_plate_from_text text)),
     ("odometer", toVal (extract_odometer_from_text text)),
     ("decoded", .pnone),
     ("recalls", .pnone)]
  match extract_vins_from_text text with
  | [] => result
  | v :: _ =>
    let result := dSet result "vin" (.str v)
    if use_nhtsa then
      match decode_vin_nhtsa dec v with
      | none => result
      | some decoded =>
        let result := dSet result "decoded" (.dict decoded)
        let make := pyOr (dGet decoded "Make") (dGet result "make")
        let model := pyOr (dGet decoded "Model") (dGet result "model")
        let year := pyOr (dGet decoded "ModelYear") (dGet result "year")
        if pyTruthy make && pyTruthy model && pyTruthy year then
          match get_vehicle_recalls rec make model year with
          | some (r :: rs) => dSet result "recalls" (.list (r :: rs))
          | _ => result
        else result
    else result

/-- The decoded keys copied under lowercase names
(vehicle_enrichment.py:257-259). -/
def extraDecodedKeys : List String :=
  ["BodyClass", "VehicleType", "PlantCountry", "Manufacturer", "EngineModel"]

/-- The heuristic regex pass of `extract_full_lease_fields`
(vehicle_enrichment.py:211-231): the successive dict assignments in source
order. -/
def leaseHeuristics (text : String) : PyDict :=
  let out : PyDict := []
  let out := dSet out "make"
    (toVal (pyOrS (extract_make_from_text text) (regexSearch1 reMakeF text)))
  let out := dSet out "model"
    (toVal (pyOrS (extract_model_from_text text) (regexSearch1 reModelF text)))
  let out := dSet out "year"
    (toVal (pyOrS (extract_year_from_text text) (regexSearch1 reYearF text)))
  let out := dSet out "color"
    (toVal (pyOrS (extract_color_from_text text) (regexSearch1 reColorF text)))
  let out := dSet out "license_plate"
    (toVal (pyOrS (extract_license_plate_from_text text) (regexSearch1 reLicenseF text)))
  let out := dSet out "odometer"
    (toVal (pyOrS (extract_odometer_from_text text) (regexSearch1 reOdometerF text)))
  let vins := extract_vins_from_text text
  let out := dSet out "vins" (.list (vins.map .str))
  let out := dSet out "vin" (toVal vins.head?)
  let out := dSet out "monthly_payment"
    (toVal (pyOrS (regexSearch1 reMonthly1 text) (regexSearch1 reMonthly2 text)))
  let out := dSet out "security_deposit" (toVal (regexSearch1 reDeposit text))
  let out := dSet out "late_fee" (toVal (regexSearch1 reLateFee text))
  let out := dSet out "mileage_allowance_per_year"
    (toVal (pyOrS (regexSearch1 reMileage1 text) (regexSearch1 reMileage2 text)))
  let out := dSet out "excess_mileage_rate"
    (toVal (pyOrS (regexSearch1 reExcess2 text) (regexSearch1 reExcess1 text)))
  out

/-- The NHTSA merge block of `extract_full_lease_fields`
(vehicle_enrichment.py:246-272). -/
def nhtsaMerge (dec : DecodeOracle) (rec : RecallOracle) (use_nhtsa : Bool)
    (out : PyDict) : PyDict :=
  if use_nhtsa && pyTruthy (dGet out "vin") then
    match decode_vin_nhtsa dec (getStr (dGet out "vin")) with
    | none => out
    | some decoded =>
      let out := dSet out "decoded" (.dict decoded)
      let out := dSetdefault out "make" (pyOr (dGet decoded "Make") (dGet out "make"))
      let out := dSetdefault out "model" (pyOr (dGet decoded "Model") (dGet out "model"))
      let out := dSetdefault out "year" (pyOr (dGet decoded "ModelYear") (dGet out "year"))
      let out := extraDecodedKeys.foldl
        (fun o k =>
          if pyTruthy (dGet decoded k) then dSetdefault o (pyLower k) (dGet decoded k)
          else o)
        out
      let make := pyOr (dGet decoded "Make") (dGet out "make")
      let model := pyOr (dGet decoded "Model") (dGet out "model")
      let year := pyOr (dGet decoded "ModelYear") (dGet out "year")
      if pyTruthy make && pyTruthy model && pyTruthy year then
        match get_vehicle_recalls rec make model year with
        | some (r :: rs) => dSet out "recalls" (.list (r :: rs))
        | _ => out
      else out
  else out

/-- The generative-extraction merge block of `extract_full_lease_fields`
(vehicle_enrichment.py:274-335): every non-`None` key of the parsed JSON
object overwrites the corresponding entry. -/
def llmMerge (llm : Option PyDict) (use_llm : Bool) (out : PyDict) : PyDict :=
  if use_llm then
    match llm with
    | some parsed =>
      parsed.foldl (fun o kv => if isPNone kv.2 then o else dSet o kv.1 kv.2) out
    | none => out
  else out

/-- `extract_full_lease_fields(text, use_nhtsa, use_llm, ollama_url)`
(vehicle_enrichment.py:185-369), restricted to the vehicle and financial
fields.  The party/contact/date/insurance/termination/governing-law
assignments (lines 200-209, 234-244) and the lessor/lessee name fallback
(lines 337-367) are independent writes to distinct keys that no verified
property references, and are omitted.  `llm` is the generative-extraction
collaborator's parsed JSON object (lines 274-335): `none` covers a
disabled/unreachable endpoint, an empty response, no brace-delimited
object, and JSON parse failure — in each of those cases the source leaves
`out` unchanged. -/
def extract_full_lease_fields (dec : DecodeOracle) (rec : RecallOracle)
    (llm : Option PyDict) (text : String) (use_nhtsa : Bool := true)
    (use_llm : Bool := false) : PyDict :=
  llmMerge llm use_llm (nhtsaMerge dec rec use_nhtsa (leaseHeuristics text))

/-! ## Fairness scorer (contract_fairness_analysis.py:37-149)

`analyze_contract_fairness` extracts a handful of values with `_find` /
`_safe_float`, then applies the rule sequence of lines 64-137 starting from
the baseline `score = 7.0`, and finally normalises with
`max(1, min(10, round(score)))`.  Each rule below returns its score
adjustment together with the red/green flags it appends; the source appends
to the two flag lists strictly in rule order, so concatenating the per-rule
contributions in that order reproduces the lists exactly.  The numeric
values interpolated into flag message strings are rendered with Lean's `ℚ`
`toString` rather than Python float formatting; no verified property reads
a message string.  Python `round` is banker's rounding (round half to
even), modelled by `pyRound`. -/

/-- One red flag (`clause` / `issue` / `severity`). -/
structure RedFlag where
  clause : String
  issue : String
  severity : String
deriving DecidableEq

/-- One green flag (`benefit` / `value`). -/
structure GreenFlag where
  benefit : String
  value : String
deriving DecidableEq

/-- The returned assessment dict. -/
structure Assessment where
  fairness_score : ℤ
  red_flags : List RedFlag
  green_flags : List GreenFlag
  summary : String

/-- Python `round` on the exact rational score: round half to even. -/
def pyRound (q : ℚ) : ℤ :=
  if q - ⌊q⌋ < 1 / 2 then ⌊q⌋
  else if 1 / 2 < q - ⌊q⌋ then ⌊q⌋ + 1
  else if ⌊q⌋ % 2 = 0 then ⌊q⌋ else ⌊q⌋ + 1

/-- The values extracted at contract_fairness_analysis.py:50-62. -/
structure FairInput where
  monthly : Option ℚ
  deposit : Option ℚ
  late_fee : Option ℚ
  mileage : Option ℤ
  excess : Option ℚ
  early_term : Bool
  gap_insurance : Bool
  recalls : PyVal

/-- Lines 70-81: missing monthly payment, high deposit, high/affordable
monthly payment. -/
def ruleMonthly (monthly deposit : Option ℚ) : ℚ × List RedFlag × List GreenFlag :=
  match monthly with
  | none =>
    (-2, [{ clause := "Monthly payment missing",
            issue := "Unable to find monthly payment", severity := "high" }], [])
  | some m =>
    let depPart : ℚ × List RedFlag :=
      match deposit with
      | some dep =>
        if 0 < m ∧ m * 3 < dep then
          (-1, [{ clause := "High security deposit",
                  issue := s!"Deposit {dep} is more than 3x monthly payment {m}",
                  severity := "medium" }])
        else (0, [])
      | none => (0, [])
    let payPart : ℚ × List RedFlag × List GreenFlag :=
      if 2000 < m then
        (-1, [{ clause := "High monthly payment",
                issue := s!"Monthly payment {m} appears high",
                severity := "medium" }], [])
      else (0, [], [{ benefit := "Affordable monthly payment", value := s!"{m}" }])
    (depPart.1 + payPart.1, depPart.2 ++ payPart.2.1, payPart.2.2)

/-- The test `monthly and late_fee > monthly * 0.5` of line 85: falsy
`monthly` (`None` or `0.0`) short-circuits to the green branch. -/
def lateFeeHigh (monthly : Option ℚ) (lf : ℚ) : Bool :=
  match monthly with
  | some m => decide (m ≠ 0) && decide (m * (1 / 2) < lf)
  | none => false

/-- Lines 84-89: late fee. -/
def ruleLateFee (monthly late_fee : Option ℚ) : ℚ × List RedFlag × List GreenFlag :=
  match late_fee with
  | none => (0, [], [])
  | some lf =>
    if lateFeeHigh monthly lf then
      (-2, [{ clause := "High late fee",
              issue := s!"Late fee {lf} is >50% of monthly payment",
              severity := "high" }], [])
    else (0, [], [{ benefit := "Reasonable late fee", value := s!"{lf}" }])

/-- Lines 92-100: mileage allowance. -/
def ruleMileage (mileage : Option ℤ) : ℚ × List RedFlag × List GreenFlag :=
  match mileage with
  | some ma =>
    if ma < 10000 then
      (-1, [{ clause := "Low mileage allowance",
              issue := s!"{ma} miles/year is low", severity := "medium" }], [])
    else (0, [], [{ benefit := "Generous mileage allowance",
                    value := s!"{ma} miles/year" }])
  | none =>
    (-1, [{ clause := "Mileage allowance missing",
            issue := "Could not find mileage allowance", severity := "medium" }], [])

/-- Lines 103-108: excess mileage rate. -/
def ruleExcess (excess : Option ℚ) : ℚ × List RedFlag × List GreenFlag :=
  match excess with
  | some x =>
    if 1 / 4 < x then
      (-1, [{ clause := "High excess mileage rate",
              issue := s!"{x}/mile is high", severity := "medium" }], [])
    else (0, [], [{ benefit := "Reasonable excess mileage rate", value := s!"{x}/mile" }])
  | none => (0, [], [])

/-- Lines 111-113: early termination clause. -/
def ruleEarlyTerm (b : Bool) : ℚ × List RedFlag × List GreenFlag :=
  if b then
    (-1, [{ clause := "Early termination clause",
            issue := "Contract contains early termination terms that may penalize lessee",
            severity := "medium" }], [])
  else (0, [], [])

/-- Lines 116-118: gap insurance — the only positive adjustment. -/
def ruleGap (b : Bool) : ℚ × List RedFlag × List GreenFlag :=
  if b then
    (1 / 2, [], [{ benefit := "Gap insurance included",
                   value := "Protects lessee against total loss shortfall" }])
  else (0, [], [])

/-- `r.get('component') or r.get('summary') or r.get('nhtsa_action') or
str(r)` (line 131); the `str(r)` fallback rendering is abstracted (never
read by a verified property). -/
def recallDesc (r : PyVal) : String :=
  match pyOr (pyGetD r "component") (pyOr (pyGetD r "summary") (pyGetD r "nhtsa_action")) with
  | .str s => s
  | _ => "recall"

/-- Lines 124-134: recall influence.  `if recalls:` is a truthiness test, so
`None` and the empty list both take the green branch.  A truthy non-list
`recalls` value (possible only for a caller-supplied `vehicle_info`) makes
the source raise inside its `try`/`except Exception: pass` after appending
a partial set of flags; the pipeline itself only ever stores a non-empty
list or `None`, and the score adjustment is `≤ 0` either way. -/
def ruleRecalls (recalls : PyVal) : ℚ × List RedFlag × List GreenFlag :=
  match recalls with
  | .list (r :: rs) =>
    let n := (r :: rs).length
    ((-(min 2 ((n : ℚ) * (3 / 10)))),
     { clause := "Vehicle recalls",
       issue := s!"{n} recall(s) found for this vehicle",
       severity := if n < 5 then "medium" else "high" } ::
       ((r :: rs).take 5).map fun rc =>
         { clause := "Recall detail", issue := recallDesc rc, severity := "low" },
     [])
  | _ => (0, [], [{ benefit := "No recalls found",
                    value := "NHTSA reported no recalls for this vehicle" }])

/-- The accumulated score and the flag lists, rules applied in source
order from the baseline 7.0. -/
def fairnessScoreFlags (inp : FairInput) : ℚ × List RedFlag × List GreenFlag :=
  let m := ruleMonthly inp.monthly inp.deposit
  let l := ruleLateFee inp.monthly inp.late_fee
  let mi := ruleMileage inp.mileage
  let e := ruleExcess inp.excess
  let et := ruleEarlyTerm inp.early_term
  let g := ruleGap inp.gap_insurance
  let rc := ruleRecalls inp.recalls
  (7 + m.1 + l.1 + mi.1 + e.1 + et.1 + g.1 + rc.1,
   m.2.1 ++ l.2.1 ++ mi.2.1 ++ e.2.1 ++ et.2.1 ++ g.2.1 ++ rc.2.1,
   m.2.2 ++ l.2.2 ++ mi.2.2 ++ e.2.2 ++ et.2.2 ++ g.2.2 ++ rc.2.2)

/-- Lines 50-62 and 120-124: regex extraction plus the vehicle-info /
recalls source.  `vehicle_info` is the optional caller-provided dict; a
falsy one (`None` or `{}`) is replaced by `extract_vehicle_info(text)`. -/
def fairInputOf (dec : DecodeOracle) (rec : RecallOracle) (text : String)
    (vehicle_info : Option PyDict) : FairInput :=
  let vi : PyDict :=
    match vehicle_info with
    | some d => if d.isEmpty then extract_vehicle_info dec rec text else d
    | none => extract_vehicle_info dec rec text
  { monthly := safeFloat (pyOrS (regexSearch1 reMonthly1 text) (regexSearch1 reMonthly2 text))
    deposit := safeFloat (regexSearch1 reDeposit text)
    late_fee := safeFloat (regexSearch1 reLateFee text)
    mileage := mileageOf (pyOrS (regexSearch1 reMileage1 text) (regexSearch1 reMileage2 text))
    excess := safeFloat (pyOrS (regexSearch1 reExcess1 text) (regexSearch1 reExcess2 text))
    early_term := (research reEarlyTerm text.data).isSome
    gap_insurance := (research reGapIns text.data).isSome
    recalls := dGet vi "recalls" }

/-- `analyze_contract_fairness(text, vehicle_info=None)`. -/
def analyze_contract_fairness (dec : DecodeOracle) (rec : RecallOracle)
    (text : String) (vehicle_info : Option PyDict := none) : Assessment :=
  let sfg := fairnessScoreFlags (fairInputOf dec rec text vehicle_info)
  let final : ℤ := max 1 (min 10 (pyRound sfg.1))
  { fairness_score := final
    red_flags := sfg.2.1
    green_flags := sfg.2.2
    summary :=
      s!"Fairness score {final} based on fees, mileage, deposits, termination clauses and vehicle recalls." }

/-! ## Concrete inputs used by counterexamples and witnesses -/

/-- A decode oracle that always fails (no network). -/
def noDecode : DecodeOracle := fun _ => none

/-- A recall oracle that always fails (no network). -/
def noRecall : RecallOracle := fun _ _ _ => none

/-- A decode oracle answering like NHTSA for a Honda VIN. -/
def hondaDecode : DecodeOracle := fun _ =>
  some [("Make", .str "HONDA"), ("Model", .str "ACCORD"), ("ModelYear", .str "2003")]

/-- A lease text whose VIN regex pass finds a VIN but whose `Make:` /
`Model:` / `Year:` regexes all miss. -/
def vinOnlyText : String := "VIN: 1HGCM82633A004352"

/-- A contract text with an extractable `monthly_payment` of 0 and a
`late_fee` of 500. -/
def zeroMonthlyText : String := "Monthly Payment: 0 late fee: 500"

/-- A single 21-word chunk (long enough to survive `chunk_text`'s filter,
and containing the keyword `payment`). -/
def oneChunk : String :=
  "payment w2 w3 w4 w5 w6 w7 w8 w9 w10 w11 w12 w13 w14 w15 w16 w17 w18 w19 w20 w21"

/-- A document containing two distinct VINs, the first repeated later. -/
def twoVinText : String :=
  "vin JTDKN3DP3R3000000 and 1HGCM82633A004352 again JTDKN3DP3R3000000."

/-- Extracted fields with a nonzero monthly payment and a late fee above
half of it. -/
def lateFeeWitnessInput : FairInput :=
  { monthly := some 1000
    deposit := none
    late_fee := some 600
    mileage := some 12000
    excess := none
    early_term := false
    gap_insurance := false
    recalls := .pnone }

/-! # Theorems -/

/-! ## Splitting and joining words -/

theorem splitAux_append_space {sp : Char} (hsp : pyIsSpace sp = true) (cs₂ : List Char) :
    ∀ (cs₁ acc : List Char),
      splitAux (cs₁ ++ sp :: cs₂) acc = splitAux cs₁ acc ++ splitAux cs₂ [] := by
  intro cs₁
  induction cs₁ with
  | nil =>
    intro acc
    simp only [List.nil_append, splitAux, hsp, if_true]
    by_cases hacc : acc = ([] : List Char) <;> simp [splitAux, hacc]
  | cons c cs ih =>
    intro acc
    simp only [List.cons_append, splitAux]
    by_cases hc : pyIsSpace c
    · simp only [hc, if_true]
      by_cases hacc : acc = ([] : List Char) <;> simp [hacc, ih]
    · rw [Bool.not_eq_true] at hc
      simp only [hc, Bool.false_eq_true, if_false]
      exact ih (c :: acc)

theorem splitAux_members :
    ∀ (cs acc : List Char), (∀ c ∈ acc, pyIsSpace c = false) →
      ∀ w ∈ splitAux cs acc, w ≠ [] ∧ ∀ c ∈ w, pyIsSpace c = false := by
  intro cs
  induction cs with
  | nil =>
    intro acc hacc w hw
    simp only [splitAux] at hw
    by_cases h : acc = ([] : List Char)
    · simp [h] at hw
    · simp only [h, if_false, List.mem_singleton] at hw
      subst hw
      refine ⟨by simpa using h, ?_⟩
      intro c hc
      exact hacc c (List.mem_reverse.mp hc)
  | cons c cs ih =>
    intro acc hacc w hw
    simp only [splitAux] at hw
    by_cases hc : pyIsSpace c = true
    · simp only [hc, if_true] at hw
      by_cases h : acc = ([] : List Char)
      · simp only [h, if_true] at hw
        exact ih [] (by simp) w hw
      · simp only [h, if_false, List.mem_cons] at hw
        rcases hw with hw | hw
        · subst hw
          refine ⟨by simpa using h, ?_⟩
          intro x hx
          exact hacc x (List.mem_reverse.mp hx)
        · exact ih [] (by simp) w hw
    · simp only [eq_false_of_ne_true hc, if_false] at hw
      refine ih (c :: acc) ?_ w hw
      intro x hx
      rcases List.mem_cons.mp hx with hx | hx
      · subst hx
        exact eq_false_of_ne_true hc
      · exact hacc x hx

theorem splitAux_no_space :
    ∀ (cs acc : List Char), (∀ c ∈ cs, pyIsSpace c = false) →
      splitAux cs acc =
        if acc = [] ∧ cs = [] then [] else [acc.reverse ++ cs] := by
  intro cs
  induction cs with
  | nil =>
    intro acc _
    by_cases h : acc = ([] : List Char) <;> simp [splitAux, h]
  | cons c cs ih =>
    intro acc h
    have hc : pyIsSpace c = false := h c (List.mem_cons_self _ _)
    simp only [splitAux, hc, if_false, Bool.false_eq_true]
    rw [ih (c :: acc) (fun x hx => h x (List.mem_cons_of_mem _ hx))]
    simp

theorem pySplitL_joinL :
    ∀ ws : List (List Char),
      (∀ w ∈ ws, w ≠ [] ∧ ∀ c ∈ w, pyIsSpace c = false) →
      pySplitL (joinL ws) = ws := by
  intro ws
  induction ws with
  | nil => intro _; rfl
  | cons w ws ih =>
    intro h
    obtain ⟨hw, hwc⟩ := h w (List.mem_cons_self _ _)
    have hsingle : pySplitL w = [w] := by
      unfold pySplitL
      rw [splitAux_no_space w [] hwc]
      simp [hw]
    cases ws with
    | nil => simpa [joinL] using hsingle
    | cons w₂ ws₂ =>
      show pySplitL (w ++ ' ' :: joinL (w₂ :: ws₂)) = w :: w₂ :: ws₂
      unfold pySplitL
      rw [splitAux_append_space (by rfl) _ w []]
      have hrec := ih (fun x hx => h x (List.mem_cons_of_mem _ hx))
      unfold pySplitL at hrec
      rw [hrec]
      have hs : splitAux w [] = [w] := hsingle
      rw [hs]
      rfl

theorem pySplit_members (text : String) :
    ∀ w ∈ pySplit text, w.data ≠ [] ∧ ∀ c ∈ w.data, pyIsSpace c = false := by
  intro w hw
  unfold pySplit at hw
  rcases List.mem_map.mp hw with ⟨cs, hcs, rfl⟩
  exact splitAux_members text.data [] (by simp) cs hcs

/-! ## Chunker lemmas (C4, C10) -/

theorem chunkWindows_join_rest {α : Type} :
    ∀ (fuel : ℕ) (l : List α), l.length ≤ fuel →
      ∃ rest : List α,
        (List.flatten ((chunkWindows l).filter fun w => 20 < w.length)) ++ rest = l
          ∧ rest.length ≤ 20 := by
  intro fuel
  induction fuel with
  | zero =>
    intro l hl
    have : l = [] := List.length_eq_zero.mp (Nat.le_zero.mp hl)
    subst this
    exact ⟨[], by simp [chunkWindows], by simp⟩
  | succ n ih =>
    intro l hl
    cases l with
    | nil => exact ⟨[], by simp [chunkWindows], by simp⟩
    | cons w ws =>
      rw [chunkWindows]
      rcases le_or_lt (w :: ws).length 120 with h120 | h120
      · have hdrop : (w :: ws).drop 120 = [] := List.drop_eq_nil_of_le h120
        have htake : (w :: ws).take 120 = w :: ws := List.take_of_length_le h120
        rw [hdrop, htake, chunkWindows]
        by_cases h20 : 20 < (w :: ws).length
        · refine ⟨[], ?_, by simp⟩
          rw [List.filter_cons_of_pos (by simpa using h20)]
          simp
        · refine ⟨w :: ws, ?_, ?_⟩
          · rw [List.filter_cons_of_neg (by simpa using h20)]
            simp
          · simp only [List.length_cons] at h20 ⊢
            omega
      · have h120s : 120 < ws.length + 1 := by simpa using h120
        have htake : ((w :: ws).take 120).length = 120 := by
          simp only [List.length_take, List.length_cons]
          omega
        obtain ⟨rest, hjoin, hrest⟩ := ih ((w :: ws).drop 120) (by
          have hlen : ws.length + 1 ≤ n + 1 := by simpa using hl
          simp only [List.length_drop, List.length_cons]
          omega)
        refine ⟨rest, ?_, hrest⟩
        rw [List.filter_cons_of_pos (by simp only [htake]; decide),
          List.flatten_cons, List.append_assoc, hjoin, List.take_append_drop]

theorem chunkWindows_subset {α : Type} :
    ∀ (fuel : ℕ) (l : List α), l.length ≤ fuel →
      ∀ win ∈ chunkWindows l, ∀ x ∈ win, x ∈ l := by
  intro fuel
  induction fuel with
  | zero =>
    intro l hl win hwin
    have : l = [] := List.length_eq_zero.mp (Nat.le_zero.mp hl)
    subst this
    simp [chunkWindows] at hwin
  | succ n ih =>
    intro l hl win hwin x hx
    cases l with
    | nil => simp [chunkWindows] at hwin
    | cons w ws =>
      rw [chunkWindows] at hwin
      rcases List.mem_cons.mp hwin with hwin | hwin
      · subst hwin
        exact List.take_subset _ _ hx
      · have hmem := ih ((w :: ws).drop 120) (by
          simp only [List.length_drop, List.length_cons] at hl ⊢
          omega) win hwin x hx
        exact List.drop_subset _ _ hmem

/-- Splitting each produced chunk back into words recovers exactly the word
windows the comprehension kept. -/
theorem chunk_text_map_split (text : String) :
    (chunk_text text).map pySplit = chunkWordLists text := by
  unfold chunk_text
  rw [List.map_map]
  have hwin : ∀ win ∈ chunkWordLists text, (pySplit ∘ pyJoinSpace) win = win := by
    intro win hwin
    have hmem : ∀ x ∈ win, x ∈ pySplit text := by
      intro x hx
      exact chunkWindows_subset (pySplit text).length (pySplit text) le_rfl win
        (List.mem_of_mem_filter hwin) x hx
    have hdata : ∀ w ∈ win.map String.data, w ≠ [] ∧ ∀ c ∈ w, pyIsSpace c = false := by
      intro w hw
      rcases List.mem_map.mp hw with ⟨x, hx, rfl⟩
      exact pySplit_members text x (hmem x hx)
    show pySplit (pyJoinSpace win) = win
    unfold pySplit pyJoinSpace
    show (pySplitL (joinL (win.map String.data))).map String.mk = win
    rw [pySplitL_joinL (win.map String.data) hdata, List.map_map]
    have : (String.mk ∘ String.data) = (id : String → String) := by
      funext s
      rfl
    rw [this, List.map_id]
  calc (chunkWordLists text).map (pySplit ∘ pyJoinSpace)
      = (chunkWordLists text).map id := List.map_congr_left hwin
    _ = chunkWordLists text := List.map_id _

/-- C4.  For every document text, splitting into whitespace-delimited
words, chunking with `chunk_text`, and concatenating the word sequences of
the resulting chunks in order reproduces the document's word sequence minus
at most one trailing fragment of at most 20 words (the minimum-size
threshold).  The reconstruction equation also expresses that the chunks are
non-overlapping and in document order. -/
theorem chunk_text_reconstructs_words (text : String) :
    ∃ rest : List String,
      List.flatten ((chunk_text text).map pySplit) ++ rest = pySplit text
        ∧ rest.length ≤ 20 := by
  rw [chunk_text_map_split]
  exact chunkWindows_join_rest (pySplit text).length (pySplit text) le_rfl

/-- C10.  Every text whose whitespace split has at most 20 words — not only
empty or whitespace-only text — produces no chunks at all: the single
undersized window is discarded by the `> 20` filter. -/
theorem chunk_text_short_input_empty (text : String)
    (h : (pySplit text).length ≤ 20) : chunk_text text = [] := by
  unfold chunk_text chunkWordLists
  cases hl : pySplit text with
  | nil => rw [chunkWindows]; rfl
  | cons w ws =>
    rw [hl] at h
    have h120 : (w :: ws).length ≤ 120 := by omega
    rw [chunkWindows, List.drop_eq_nil_of_le h120, List.take_of_length_le h120,
      chunkWindows]
    have hneg : ¬(20 < (w :: ws).length) := by omega
    rw [List.filter_cons_of_neg (by simpa using hneg)]
    rfl

/-- C10 witness: a concrete five-word, non-empty document yields no
chunks. -/
theorem chunk_text_short_input_empty_witness :
    (pySplit "a b c d e").length ≤ 20 ∧ chunk_text "a b c d e" = [] :=
  ⟨by decide, chunk_text_short_input_empty "a b c d e" (by decide)⟩

/-! ## Context assembly (C5) -/

theorem pySplitL_joinNL (css : List (List Char)) :
    pySplitL (joinNL css) = (css.map pySplitL).flatten := by
  induction css with
  | nil => rfl
  | cons c css ih =>
    cases css with
    | nil => simp [joinNL, pySplitL]
    | cons c₂ rest =>
      show pySplitL (c ++ '\n' :: ('\n' :: joinNL (c₂ :: rest))) = _
      unfold pySplitL
      rw [splitAux_append_space (by rfl) _ c []]
      have hskip : splitAux ('\n' :: joinNL (c₂ :: rest)) [] =
          splitAux (joinNL (c₂ :: rest)) [] := by
        simp [splitAux, pyIsSpace]
      rw [hskip]
      have hrec := ih
      unfold pySplitL at hrec
      rw [hrec]
      simp [pySplitL]

/-- The whitespace-split word count of the `"\n\n"`-joined context equals
the sum of the per-chunk word counts that the loop accumulates. -/
theorem joinContext_word_count (cs : List String) :
    (pySplit (joinContext cs)).length = (cs.map fun c => (pySplit c).length).sum := by
  show ((pySplitL (joinNL (cs.map String.data))).map String.mk).length = _
  rw [List.length_map, pySplitL_joinNL, List.length_flatten, List.map_map, List.map_map]
  congr 1
  apply List.map_congr_left
  intro c _
  simp [pySplit]

theorem buildContext_sum_le (pred : String → Bool) (maxW : ℕ) :
    ∀ (chunks : List String) (wc : ℕ), wc ≤ maxW →
      wc + ((buildContext pred maxW chunks wc).map fun c => (pySplit c).length).sum
        ≤ maxW := by
  intro chunks
  induction chunks with
  | nil =>
    intro wc h
    simpa [buildContext] using h
  | cons c rest ih =>
    intro wc h
    unfold buildContext
    split_ifs with hp hb
    · simpa using h
    · have hrec := ih (wc + (pySplit c).length) (by omega)
      simp only [List.map_cons, List.sum_cons]
      omega
    · exact ih wc h

/-- C5.  For every ranked sequence of retrieved chunks, every keyword
filter and every `max_words` budget, the whitespace-split word count of the
assembled (blank-line-joined) context never exceeds `max_words`: chunks are
accumulated in rank order and assembly breaks as soon as adding the next
chunk would exceed the budget. -/
theorem context_word_count_le (pred : String → Bool) (cs : List String) (maxW : ℕ) :
    (pySplit (joinContext (buildContext pred maxW cs 0))).length ≤ maxW := by
  rw [joinContext_word_count]
  simpa using buildContext_sum_le pred maxW cs 0 (Nat.zero_le _)

/-! ## Top-K retrieval (C2) -/

theorem buildContext_length_le (pred : String → Bool) (maxW : ℕ) :
    ∀ (cs : List String) (wc : ℕ), (buildContext pred maxW cs wc).length ≤ cs.length := by
  intro cs
  induction cs with
  | nil => intro wc; simp [buildContext]
  | cons c rest ih =>
    intro wc
    unfold buildContext
    split_ifs
    · simp
    · have := ih (wc + (pySplit c).length)
      simp only [List.length_cons]
      omega
    · have := ih wc
      simp only [List.length_cons]
      omega

theorem faissSearch_length (dists : List ℚ) (k : ℕ) :
    (faissSearch dists k).length = k := by
  unfold faissSearch faissTop
  have hlen : ((dists.enum.insertionSort distLE).take k).length ≤ k := by
    rw [List.length_take]
    omega
  simp only [List.length_append, List.length_map, List.length_replicate]
  omega

/-- C2 (amended).  Whenever at least `k` chunks are indexed, the search
step returns exactly `k` pairwise-distinct chunk indices, each in range and
carrying its own distance, in ascending-distance order (no padding occurs),
and the retrieval loop then yields at most `k` context chunks.  (When fewer
than `k` chunks exist, `faissSearch` pads with `-1`, which Python's
`chunks[i]` resolves to the *last* chunk — see the counterexample — so the
unconditional claim fails.) -/
theorem faiss_topk_within_bounds (dists : List ℚ) (k : ℕ) (h : k ≤ dists.length) :
    faissSearch dists k = (faissTop dists k).map (fun p => (p.1 : ℤ))
    ∧ (faissTop dists k).length = k
    ∧ ((faissTop dists k).map Prod.fst).Nodup
    ∧ List.Pairwise distLE (faissTop dists k)
    ∧ (∀ p ∈ faissTop dists k, p.1 < dists.length ∧ dists[p.1]? = some p.2)
    ∧ ∀ (pred : String → Bool) (chunks : List String) (maxW : ℕ),
        (retrieveChunks pred chunks dists k maxW).length ≤ k := by
  have hperm := List.perm_insertionSort distLE dists.enum
  have hlen_s : (dists.enum.insertionSort distLE).length = dists.length := by
    rw [hperm.length_eq, List.enum_length]
  have htoplen : (faissTop dists k).length = k := by
    unfold faissTop
    rw [List.length_take, hlen_s]
    omega
  refine ⟨?_, htoplen, ?_, ?_, ?_, ?_⟩
  · show (faissTop dists k).map (fun p => ((p.1 : ℤ)))
        ++ List.replicate (k - ((faissTop dists k).map (fun p => ((p.1 : ℤ)))).length) (-1)
      = (faissTop dists k).map (fun p => ((p.1 : ℤ)))
    rw [List.length_map, htoplen, Nat.sub_self]
    simp
  · have h1 : ((dists.enum.insertionSort distLE).map Prod.fst).Nodup := by
      rw [(hperm.map Prod.fst).nodup_iff, List.enum_map_fst]
      exact List.nodup_range _
    exact List.Nodup.sublist ((List.take_sublist k _).map Prod.fst) h1
  · exact List.Pairwise.sublist (List.take_sublist k _)
      (List.sorted_insertionSort distLE _)
  · intro p hp
    have hp' : p ∈ dists.enum := hperm.mem_iff.mp (List.mem_of_mem_take hp)
    have hget := List.mem_enum_iff_getElem?.mp hp'
    refine ⟨?_, hget⟩
    rcases List.getElem?_eq_some.mp hget with ⟨hlt, _⟩
    exact hlt
  · intro pred chunks maxW
    calc (retrieveChunks pred chunks dists k maxW).length
        ≤ ((faissSearch dists k).filterMap (pyGet chunks)).length :=
          buildContext_length_le pred maxW _ 0
      _ ≤ (faissSearch dists k).length := List.length_filterMap_le _ _
      _ = k := faissSearch_length dists k

/-- C2 amended-theorem witness at `dists = [5, 2, 7, 2]`, `k = 3`. -/
theorem faiss_topk_within_bounds_witness :
    (3 : ℕ) ≤ ([5, 2, 7, 2] : List ℚ).length
    ∧ (faissSearch [5, 2, 7, 2] 3 = (faissTop [5, 2, 7, 2] 3).map (fun p => (p.1 : ℤ))
      ∧ (faissTop [5, 2, 7, 2] 3).length = 3
      ∧ ((faissTop [5, 2, 7, 2] 3).map Prod.fst).Nodup
      ∧ List.Pairwise distLE (faissTop [5, 2, 7, 2] 3)
      ∧ (∀ p ∈ faissTop ([5, 2, 7, 2] : List ℚ) 3,
          p.1 < ([5, 2, 7, 2] : List ℚ).length ∧ ([5, 2, 7, 2] : List ℚ)[p.1]? = some p.2)
      ∧ ∀ (pred : String → Bool) (chunks : List String) (maxW : ℕ),
          (retrieveChunks pred chunks [5, 2, 7, 2] 3 maxW).length ≤ 3) :=
  ⟨by simp, faiss_topk_within_bounds [5, 2, 7, 2] 3 (by simp)⟩

/-- C2 counterexample.  With a single indexed chunk and the default
`TOP_K = 6`, `index.search` pads its label row with `-1`; the loops of
Tokenization.py:108-115 / streamlit_app.py:114-121 then read `chunks[-1]`
(the last chunk, by Python indexing), so the retrieval step returns six
copies of the only chunk — more than `min(k, #chunks) = 1` results, not
pairwise distinct, and `k` is nowhere clamped. -/
theorem faiss_topk_counterexample :
    min 6 ([oneChunk] : List String).length = 1
    ∧ faissSearch [0] 6 = [0, -1, -1, -1, -1, -1]
    ∧ retrieveChunks (fun _ => true) [oneChunk] [0] 6 400 = List.replicate 6 oneChunk
    ∧ 1 < (retrieveChunks (fun _ => true) [oneChunk] [0] 6 400).length
    ∧ ¬(retrieveChunks (fun _ => true) [oneChunk] [0] 6 400).Nodup := by
  refine ⟨rfl, rfl, ?_, ?_, ?_⟩ <;> decide

/-! ## Dict lemmas -/

theorem dGet_dSet_ne (d : PyDict) (k' k : String) (h : k' ≠ k) (v : PyVal) :
    dGet (dSet d k' v) k = dGet d k := by
  induction d with
  | nil => simp [dSet, dGet, h]
  | cons p rest ih =>
    rcases p with ⟨pk, pv⟩
    by_cases hp : pk = k'
    · subst hp
      simp [dSet, dGet, h]
    · simp only [dSet, beq_iff_eq, hp, if_false]
      by_cases hpk : pk = k <;> simp [dGet, hpk, ih]

theorem dGet_dSetdefault_ne (d : PyDict) (k' k : String) (h : k' ≠ k) (v : PyVal) :
    dGet (dSetdefault d k' v) k = dGet d k := by
  induction d with
  | nil => simp [dSetdefault, dGet, h]
  | cons p rest ih =>
    rcases p with ⟨pk, pv⟩
    by_cases hp : pk = k'
    · subst hp
      simp [dSetdefault, dGet, h]
    · simp only [dSetdefault, beq_iff_eq, hp, if_false]
      by_cases hpk : pk = k <;> simp [dGet, hpk, ih]

theorem dGet_dSet_self (d : PyDict) (k : String) (v : PyVal) :
    dGet (dSet d k v) k = v := by
  induction d with
  | nil => simp [dSet, dGet]
  | cons p rest ih =>
    rcases p with ⟨pk, pv⟩
    by_cases hp : pk = k
    · subst hp
      simp [dSet, dGet]
    · simp [dSet, dGet, hp, ih]

/-- One step of the decoded-extras loop never touches a key other than the
lowercased decoded key. -/
theorem dGet_enrich_step_ne (decoded o : PyDict) (kk : String) (k : String)
    (h : pyLower kk ≠ k) :
    dGet (if pyTruthy (dGet decoded kk) then dSetdefault o (pyLower kk) (dGet decoded kk)
          else o) k = dGet o k := by
  split_ifs
  · exact dGet_dSetdefault_ne o _ _ h _
  · rfl

theorem dGet_enrich_fold_ne (decoded : PyDict) (keys : List String) (k : String) :
    (∀ kk ∈ keys, pyLower kk ≠ k) →
    ∀ out : PyDict,
      dGet (keys.foldl
        (fun o kk =>
          if pyTruthy (dGet decoded kk) then dSetdefault o (pyLower kk) (dGet decoded kk)
          else o) out) k = dGet out k := by
  induction keys with
  | nil => intro _ out; rfl
  | cons kk keys ih =>
    intro h out
    rw [List.foldl_cons, ih (fun x hx => h x (List.mem_cons_of_mem _ hx)),
      dGet_enrich_step_ne decoded out kk k (h kk (List.mem_cons_self _ _))]

/-- The NHTSA merge block never changes the `vin` entry. -/
theorem dGet_nhtsaMerge_vin (dec : DecodeOracle) (rec : RecallOracle) (un : Bool)
    (out : PyDict) : dGet (nhtsaMerge dec rec un out) "vin" = dGet out "vin" := by
  unfold nhtsaMerge
  split_ifs
  · cases hdec : decode_vin_nhtsa dec (getStr (dGet out "vin")) with
    | none => rfl
    | some decoded =>
      dsimp only
      split_ifs
      · split
        all_goals
          first
            | rw [dGet_dSet_ne _ "recalls" "vin" (by decide),
                dGet_enrich_fold_ne decoded extraDecodedKeys "vin" (by decide),
                dGet_dSetdefault_ne _ "year" "vin" (by decide),
                dGet_dSetdefault_ne _ "model" "vin" (by decide),
                dGet_dSetdefault_ne _ "make" "vin" (by decide),
                dGet_dSet_ne _ "decoded" "vin" (by decide)]
            | rw [dGet_enrich_fold_ne decoded extraDecodedKeys "vin" (by decide),
                dGet_dSetdefault_ne _ "year" "vin" (by decide),
                dGet_dSetdefault_ne _ "model" "vin" (by decide),
                dGet_dSetdefault_ne _ "make" "vin" (by decide),
                dGet_dSet_ne _ "decoded" "vin" (by decide)]
      · rw [dGet_enrich_fold_ne decoded extraDecodedKeys "vin" (by decide),
          dGet_dSetdefault_ne _ "year" "vin" (by decide),
          dGet_dSetdefault_ne _ "model" "vin" (by decide),
          dGet_dSetdefault_ne _ "make" "vin" (by decide),
          dGet_dSet_ne _ "decoded" "vin" (by decide)]
  · rfl

/-- The heuristic pass stores `vins[0] if vins else None` under `vin`. -/
theorem dGet_leaseHeuristics_vin (text : String) :
    dGet (leaseHeuristics text) "vin" = toVal (extract_vins_from_text text).head? := by
  unfold leaseHeuristics
  rw [dGet_dSet_ne _ "excess_mileage_rate" "vin" (by decide),
    dGet_dSet_ne _ "mileage_allowance_per_year" "vin" (by decide),
    dGet_dSet_ne _ "late_fee" "vin" (by decide),
    dGet_dSet_ne _ "security_deposit" "vin" (by decide),
    dGet_dSet_ne _ "monthly_payment" "vin" (by decide),
    dGet_dSet_self]

/-! ## VIN extraction (C6) -/

theorem vinScan_members :
    ∀ (fuel : ℕ) (prev : Option Char) (cs : List Char),
      ∀ w ∈ vinScan fuel prev cs, w.length = 17 ∧ ∀ c ∈ w, isVinChar c = true := by
  intro fuel
  induction fuel with
  | zero =>
    intro prev cs w hw
    simp [vinScan] at hw
  | succ n ih =>
    intro prev cs w hw
    cases cs with
    | nil => simp [vinScan] at hw
    | cons c cs' =>
      simp only [vinScan] at hw
      split_ifs at hw with hcond
      · simp only [Bool.and_eq_true] at hcond
        have hc : vinCand ((c :: cs').take 17) = true := hcond.1.2
        unfold vinCand at hc
        simp only [Bool.and_eq_true, beq_iff_eq, List.all_eq_true] at hc
        rcases List.mem_cons.mp hw with hw | hw
        · subst hw
          exact ⟨hc.1, fun x hx => hc.2 x hx⟩
        · exact ih _ ((c :: cs').drop 17) w hw
      · exact ih (some c) cs' w hw

theorem dedupFirst_sublist :
    ∀ (l seen : List (List Char)), (dedupFirst seen l).Sublist l := by
  intro l
  induction l with
  | nil => intro seen; simp [dedupFirst]
  | cons v vs ih =>
    intro seen
    unfold dedupFirst
    split_ifs
    · exact (ih seen).cons v
    · exact (ih (v :: seen)).cons₂ v

theorem mem_dedupFirst :
    ∀ (l seen : List (List Char)) (v : List Char),
      v ∈ dedupFirst seen l ↔ v ∈ l ∧ v ∉ seen := by
  intro l
  induction l with
  | nil => intro seen v; simp [dedupFirst]
  | cons x vs ih =>
    intro seen v
    unfold dedupFirst
    split_ifs with hx
    · rw [ih seen v]
      constructor
      · exact fun ⟨hm, hn⟩ => ⟨List.mem_cons_of_mem _ hm, hn⟩
      · rintro ⟨hm, hn⟩
        rcases List.mem_cons.mp hm with rfl | hm
        · exact absurd hx hn
        · exact ⟨hm, hn⟩
    · constructor
      · intro hm
        rcases List.mem_cons.mp hm with rfl | hm
        · exact ⟨List.mem_cons_self _ _, hx⟩
        · rcases (ih (x :: seen) v).mp hm with ⟨h1, h2⟩
          exact ⟨List.mem_cons_of_mem _ h1, fun hc => h2 (List.mem_cons_of_mem _ hc)⟩
      · rintro ⟨hm, hn⟩
        rcases List.mem_cons.mp hm with rfl | hm
        · exact List.mem_cons_self _ _
        · by_cases hvx : v = x
          · subst hvx
            exact List.mem_cons_self _ _
          · exact List.mem_cons_of_mem _ ((ih (x :: seen) v).mpr
              ⟨hm, fun hc => by
                rcases List.mem_cons.mp hc with hc | hc
                · exact hvx hc
                · exact hn hc⟩)

theorem dedupFirst_nodup :
    ∀ (l seen : List (List Char)), (dedupFirst seen l).Nodup := by
  intro l
  induction l with
  | nil => intro seen; simp [dedupFirst]
  | cons v vs ih =>
    intro seen
    unfold dedupFirst
    split_ifs with hv
    · exact ih seen
    · refine List.Nodup.cons ?_ (ih (v :: seen))
      intro hmem
      exact ((mem_dedupFirst vs (v :: seen) v).mp hmem).2 (List.mem_cons_self _ _)

theorem dedupFirst_head :
    ∀ l : List (List Char), (dedupFirst [] l).head? = l.head? := by
  intro l
  cases l with
  | nil => rfl
  | cons v vs =>
    unfold dedupFirst
    simp

/-- C6.  For every input text, `extract_vins_from_text` returns only
17-character strings over the VIN alphabet (uppercase letters excluding
I, O, Q, plus digits); the list is duplicate-free and is a (first-seen,
order-preserving) sublist of the raw `findall` match sequence containing
exactly its members; and `extract_full_lease_fields` selects the first
element as the canonical `vin` (`None` when the list is empty). -/
theorem extract_vins_properties (text : String) :
    (∀ v ∈ extract_vins_from_text text,
        v.length = 17 ∧ ∀ c ∈ v.data, isVinChar c = true)
    ∧ (extract_vins_from_text text).Nodup
    ∧ (extract_vins_from_text text).Sublist ((vinMatches text).map String.mk)
    ∧ (∀ v, v ∈ extract_vins_from_text text ↔
        v ∈ (vinMatches text).map String.mk)
    ∧ (extract_vins_from_text text).head?
        = ((vinMatches text).map String.mk).head?
    ∧ (∀ (dec : DecodeOracle) (rec : RecallOracle) (llm : Option PyDict)
        (un : Bool),
        dGet (extract_full_lease_fields dec rec llm text un false) "vin"
          = toVal (extract_vins_from_text text).head?) := by
  have hvinfull : ∀ (dec : DecodeOracle) (rec : RecallOracle) (llm : Option PyDict)
      (un : Bool),
      dGet (extract_full_lease_fields dec rec llm text un false) "vin"
        = toVal (extract_vins_from_text text).head? := by
    intro dec rec llm un
    show dGet (llmMerge llm false (nhtsaMerge dec rec un (leaseHeuristics text))) "vin" = _
    rw [show llmMerge llm false (nhtsaMerge dec rec un (leaseHeuristics text))
          = nhtsaMerge dec rec un (leaseHeuristics text) from rfl,
      dGet_nhtsaMerge_vin, dGet_leaseHeuristics_vin]
  by_cases htext : text = ""
  · subst htext
    have h1 : extract_vins_from_text "" = [] := rfl
    have h2 : (vinMatches "").map String.mk = [] := rfl
    refine ⟨?_, ?_, ?_, ?_, ?_, hvinfull⟩
    · rw [h1]
      intro v hv
      exact absurd hv (List.not_mem_nil v)
    · rw [h1]
      exact List.nodup_nil
    · rw [h1, h2]
    · intro v
      rw [h1, h2]
    · rw [h1, h2]
  · have hev : extract_vins_from_text text
        = (dedupFirst [] (vinMatches text)).map String.mk := by
      unfold extract_vins_from_text
      rw [if_neg htext]
    refine ⟨?_, ?_, ?_, ?_, ?_, hvinfull⟩
    · intro v hv
      rw [hev] at hv
      rcases List.mem_map.mp hv with ⟨w, hw, rfl⟩
      have hscan := ((mem_dedupFirst _ [] w).mp hw).1
      have hprops := vinScan_members (pyUpper text).data.length none
        (pyUpper text).data w hscan
      exact ⟨hprops.1, fun c hc => hprops.2 c hc⟩
    · rw [hev]
      refine List.Nodup.map ?_ (dedupFirst_nodup _ [])
      intro a b hab
      simpa using congrArg String.data hab
    · rw [hev]
      exact (dedupFirst_sublist _ []).map String.mk
    · intro v
      rw [hev]
      simp only [List.mem_map]
      constructor
      · rintro ⟨w, hw, rfl⟩
        exact ⟨w, ((mem_dedupFirst _ [] w).mp hw).1, rfl⟩
      · rintro ⟨w, hw, rfl⟩
        exact ⟨w, (mem_dedupFirst _ [] w).mpr ⟨hw, by simp⟩, rfl⟩
    · rw [hev, List.head?_map, List.head?_map, dedupFirst_head]

/-- C6 witness: the two-VIN document.  The first VIN has seventeen
VIN-alphabet characters, the extracted list is duplicate-free, and the
`vin` field of the full extractor is the head of the list. -/
theorem extract_vins_properties_witness :
    (("JTDKN3DP3R3000000" : String).length = 17
      ∧ ∀ c ∈ ("JTDKN3DP3R3000000" : String).data, isVinChar c = true)
    ∧ (extract_vins_from_text twoVinText).Nodup
    ∧ dGet (extract_full_lease_fields noDecode noRecall none twoVinText true false) "vin"
        = toVal (extract_vins_from_text twoVinText).head? := by
  obtain ⟨hmem, hnodup, _, _, _, hfull⟩ := extract_vins_properties twoVinText
  exact ⟨hmem "JTDKN3DP3R3000000" (by decide), hnodup,
    hfull noDecode noRecall none true⟩

/-! ## Rounding lemmas -/

theorem pyRound_cases (q : ℚ) : pyRound q = ⌊q⌋ ∨ pyRound q = ⌊q⌋ + 1 := by
  unfold pyRound
  split_ifs <;> simp

theorem floor_le_pyRound (q : ℚ) : ⌊q⌋ ≤ pyRound q := by
  rcases pyRound_cases q with h | h <;> omega

theorem pyRound_le_floor_add_one (q : ℚ) : pyRound q ≤ ⌊q⌋ + 1 := by
  rcases pyRound_cases q with h | h <;> omega

theorem pyRound_intCast (n : ℤ) : pyRound (n : ℚ) = n := by
  unfold pyRound
  rw [Int.floor_intCast]
  norm_num

theorem pyRound_mono {a b : ℚ} (h : a ≤ b) : pyRound a ≤ pyRound b := by
  have hf : ⌊a⌋ ≤ ⌊b⌋ := Int.floor_le_floor h
  rcases eq_or_lt_of_le hf with heq | hlt
  · have hr : a - ⌊a⌋ ≤ b - ⌊b⌋ := by
      rw [← heq]
      linarith
    unfold pyRound
    rw [← heq] at hr ⊢
    split_ifs <;> first | omega | linarith
  · have h1 := pyRound_le_floor_add_one a
    have h2 := floor_le_pyRound b
    omega

theorem clamp_pyRound (q : ℚ) :
    max 1 (min 10 (pyRound q)) = pyRound (max 1 (min 10 q)) := by
  rcases le_total q 1 with h1 | h1
  · have hm : max (1 : ℚ) (min 10 q) = 1 := by
      rw [min_eq_right (le_trans h1 (by norm_num)), max_eq_left h1]
    have hr : pyRound q ≤ 1 := by
      have := pyRound_mono h1
      rwa [show ((1 : ℚ) = ((1 : ℤ) : ℚ)) by norm_num, pyRound_intCast] at this
    rw [hm, show ((1 : ℚ) = ((1 : ℤ) : ℚ)) by norm_num, pyRound_intCast]
    omega
  · rcases le_total q 10 with h10 | h10
    · have hm : max (1 : ℚ) (min 10 q) = q := by
        rw [min_eq_right h10, max_eq_right h1]
      have hlo : (1 : ℤ) ≤ pyRound q := by
        have := pyRound_mono h1
        rwa [show ((1 : ℚ) = ((1 : ℤ) : ℚ)) by norm_num, pyRound_intCast] at this
      have hhi : pyRound q ≤ 10 := by
        have := pyRound_mono h10
        rwa [show ((10 : ℚ) = ((10 : ℤ) : ℚ)) by norm_num, pyRound_intCast] at this
      rw [hm]
      omega
    · have hm : max (1 : ℚ) (min 10 q) = 10 := by
        rw [min_eq_left h10, max_eq_right (by norm_num : (1 : ℚ) ≤ 10)]
      have hr : (10 : ℤ) ≤ pyRound q := by
        have := pyRound_mono h10
        rwa [show ((10 : ℚ) = ((10 : ℤ) : ℚ)) by norm_num, pyRound_intCast] at this
      rw [hm, show ((10 : ℚ) = ((10 : ℤ) : ℚ)) by norm_num, pyRound_intCast]
      omega

/-! ## Per-rule score-adjustment bounds -/

theorem ruleMonthly_nonpos (m d : Option ℚ) : (ruleMonthly m d).1 ≤ 0 := by
  unfold ruleMonthly
  rcases m with _ | m <;> rcases d with _ | d <;> dsimp only <;>
    (try split_ifs) <;> norm_num

theorem ruleLateFee_nonpos (m l : Option ℚ) : (ruleLateFee m l).1 ≤ 0 := by
  unfold ruleLateFee
  rcases l with _ | l <;> dsimp only <;> (try split_ifs) <;> norm_num

theorem ruleMileage_nonpos (m : Option ℤ) : (ruleMileage m).1 ≤ 0 := by
  unfold ruleMileage
  rcases m with _ | m <;> dsimp only <;> (try split_ifs) <;> norm_num

theorem ruleExcess_nonpos (x : Option ℚ) : (ruleExcess x).1 ≤ 0 := by
  unfold ruleExcess
  rcases x with _ | x <;> dsimp only <;> (try split_ifs) <;> norm_num

theorem ruleEarlyTerm_nonpos (b : Bool) : (ruleEarlyTerm b).1 ≤ 0 := by
  unfold ruleEarlyTerm
  split_ifs <;> norm_num

theorem ruleGap_le_half (b : Bool) : (ruleGap b).1 ≤ 1 / 2 := by
  unfold ruleGap
  split_ifs <;> norm_num

theorem ruleRecalls_nonpos (r : PyVal) : (ruleRecalls r).1 ≤ 0 := by
  unfold ruleRecalls
  rcases r with _ | s | q | xs | kvs
  · norm_num
  · norm_num
  · norm_num
  · rcases xs with _ | ⟨x, xs⟩
    · norm_num
    · dsimp only
      have h1 : (0 : ℚ) ≤ ((x :: xs).length : ℚ) * (3 / 10) := by positivity
      have h2 : (0 : ℚ) ≤ min 2 (((x :: xs).length : ℚ) * (3 / 10)) :=
        le_min (by norm_num) h1
      linarith
  · norm_num

/-- The accumulated score never exceeds 7.5: the gap-insurance bonus is the
only positive adjustment. -/
theorem fairness_raw_le (inp : FairInput) : (fairnessScoreFlags inp).1 ≤ 15 / 2 := by
  unfold fairnessScoreFlags
  dsimp only
  have h1 := ruleMonthly_nonpos inp.monthly inp.deposit
  have h2 := ruleLateFee_nonpos inp.monthly inp.late_fee
  have h3 := ruleMileage_nonpos inp.mileage
  have h4 := ruleExcess_nonpos inp.excess
  have h5 := ruleEarlyTerm_nonpos inp.early_term
  have h6 := ruleGap_le_half inp.gap_insurance
  have h7 := ruleRecalls_nonpos inp.recalls
  linarith

/-- C1.  For every input text and every (possibly absent or partial)
`vehicle_info` (and any behaviour of the network collaborators), the
`fairness_score` returned by `analyze_contract_fairness` is an integer in
[1, 10], and it equals `round(clamp(accumulated, 1, 10))` where
`accumulated` is the baseline 7.0 plus the rule adjustments (the source's
`max(1, min(10, round(score)))` coincides with round-after-clamp because
banker's rounding is monotone and the clamp bounds are integers). -/
theorem analyze_fairness_score_in_range (dec : DecodeOracle) (rec : RecallOracle)
    (text : String) (vi : Option PyDict) :
    (analyze_contract_fairness dec rec text vi).fairness_score
        = pyRound (max 1 (min 10 (fairnessScoreFlags (fairInputOf dec rec text vi)).1))
      ∧ 1 ≤ (analyze_contract_fairness dec rec text vi).fairness_score
      ∧ (analyze_contract_fairness dec rec text vi).fairness_score ≤ 10 := by
  have hs : (analyze_contract_fairness dec rec text vi).fairness_score
      = max 1 (min 10 (pyRound (fairnessScoreFlags (fairInputOf dec rec text vi)).1)) := rfl
  refine ⟨?_, ?_, ?_⟩
  · rw [hs, clamp_pyRound]
  · rw [hs]
    omega
  · rw [hs]
    omega

/-- C9.  The only positive adjustment is the +0.5 gap-insurance bonus on
the 7.0 baseline, so the accumulated score is at most 7.5; banker's
rounding sends 7.5 to 8, hence the final score never exceeds 8 and the
scores 9 and 10 are unreachable for any text, vehicle info and
collaborator behaviour. -/
theorem analyze_fairness_score_le_eight (dec : DecodeOracle) (rec : RecallOracle)
    (text : String) (vi : Option PyDict) :
    (analyze_contract_fairness dec rec text vi).fairness_score ≤ 8 := by
  have hs : (analyze_contract_fairness dec rec text vi).fairness_score
      = max 1 (min 10 (pyRound (fairnessScoreFlags (fairInputOf dec rec text vi)).1)) := rfl
  have h1 : pyRound (fairnessScoreFlags (fairInputOf dec rec text vi)).1
      ≤ pyRound (15 / 2 : ℚ) := pyRound_mono (fairness_raw_le _)
  have hf : (⌊(15 / 2 : ℚ)⌋ : ℤ) = 7 := by
    rw [Int.floor_eq_iff]
    norm_num
  have h2 : pyRound (15 / 2 : ℚ) = 8 := by
    unfold pyRound
    rw [hf]
    norm_num
  rw [hs]
  omega

/-! ## Empty-document scenario (C7) -/

/-- C7.  On the empty string (where the VIN list is empty, so no recall
enrichment is attempted and any collaborator behaviour is irrelevant),
`analyze_contract_fairness` returns fairness score exactly 4 — the
baseline 7 minus 2 for the missing monthly payment and minus 1 for the
missing mileage allowance — and the only flags are those two red flags and
the no-recalls green flag. -/
theorem analyze_empty_text_score_four (dec : DecodeOracle) (rec : RecallOracle) :
    (analyze_contract_fairness dec rec "" none).fairness_score = 4
    ∧ (analyze_contract_fairness dec rec "" none).red_flags.map RedFlag.clause
        = ["Monthly payment missing", "Mileage allowance missing"]
    ∧ (analyze_contract_fairness dec rec "" none).green_flags.map GreenFlag.benefit
        = ["No recalls found"] := by
  refine ⟨?_, rfl, rfl⟩
  have hscore : (analyze_contract_fairness dec rec "" none).fairness_score
      = max 1 (min 10 (pyRound ((7 : ℚ) + -2 + 0 + -1 + 0 + 0 + 0 + 0))) := rfl
  have h4 : ((7 : ℚ) + -2 + 0 + -1 + 0 + 0 + 0 + 0) = ((4 : ℤ) : ℚ) := by norm_num
  rw [hscore, h4, pyRound_intCast]
  decide

/-! ## Late-fee rule (C8) -/

/-- C8 (amended).  For every extracted-field combination with a
`late_fee` value: when the extracted `monthly_payment` is present and
nonzero and `late_fee > 0.5 × monthly_payment` (the source's
`monthly and late_fee > monthly * 0.5`), the assessment gains the
high-severity "High late fee" red flag and the score adjustment is −2
relative to the same fields without a late fee; otherwise — including when
`monthly_payment` is missing or extracted as 0 — the "Reasonable late fee"
green flag is appended and the score is unchanged. -/
theorem late_fee_rule (inp : FairInput) (lf : ℚ) (h : inp.late_fee = some lf) :
    if lateFeeHigh inp.monthly lf then
      ({ clause := "High late fee",
         issue := s!"Late fee {lf} is >50% of monthly payment",
         severity := "high" } : RedFlag) ∈ (fairnessScoreFlags inp).2.1
      ∧ (fairnessScoreFlags inp).1
          = (fairnessScoreFlags { inp with late_fee := none }).1 - 2
    else
      ({ benefit := "Reasonable late fee", value := s!"{lf}" } : GreenFlag)
          ∈ (fairnessScoreFlags inp).2.2
      ∧ (fairnessScoreFlags inp).1
          = (fairnessScoreFlags { inp with late_fee := none }).1 := by
  unfold fairnessScoreFlags
  dsimp only
  rw [h]
  have hnone : (ruleLateFee inp.monthly none).1 = 0 := rfl
  by_cases hc : lateFeeHigh inp.monthly lf
  · rw [if_pos hc]
    have hred : (ruleLateFee inp.monthly (some lf)).2.1
        = [{ clause := "High late fee",
             issue := s!"Late fee {lf} is >50% of monthly payment",
             severity := "high" }] := by
      unfold ruleLateFee
      dsimp only
      rw [if_pos hc]
    have hval : (ruleLateFee inp.monthly (some lf)).1 = -2 := by
      unfold ruleLateFee
      dsimp only
      rw [if_pos hc]
    constructor
    · rw [hred]
      simp
    · rw [hval, hnone]
      ring
  · rw [if_neg hc]
    have hgreen : (ruleLateFee inp.monthly (some lf)).2.2
        = [{ benefit := "Reasonable late fee", value := s!"{lf}" }] := by
      unfold ruleLateFee
      dsimp only
      rw [if_neg hc]
    have hval : (ruleLateFee inp.monthly (some lf)).1 = 0 := by
      unfold ruleLateFee
      dsimp only
      rw [if_neg hc]
    constructor
    · rw [hgreen]
      simp
    · rw [hval, hnone]

/-- C8 amended-theorem witness: monthly 1000, late fee 600 (> 500). -/
theorem late_fee_rule_witness :
    lateFeeWitnessInput.late_fee = some 600
    ∧ ({ clause := "High late fee",
         issue := s!"Late fee {(600 : ℚ)} is >50% of monthly payment",
         severity := "high" } : RedFlag) ∈ (fairnessScoreFlags lateFeeWitnessInput).2.1
    ∧ (fairnessScoreFlags lateFeeWitnessInput).1
        = (fairnessScoreFlags { lateFeeWitnessInput with late_fee := none }).1 - 2 := by
  have h := late_fee_rule lateFeeWitnessInput 600 rfl
  have hc : lateFeeHigh lateFeeWitnessInput.monthly 600 = true := by
    show (decide ((1000 : ℚ) ≠ 0) && decide ((1000 : ℚ) * (1 / 2) < 600)) = true
    norm_num
  rw [hc, if_pos rfl] at h
  exact ⟨rfl, h.1, h.2⟩

/-- C8 counterexample.  On a contract whose extracted monthly payment is 0
and late fee is 500, the late fee exceeds 0.5 × monthly payment, yet the
source's falsy-guard `monthly and …` routes to the green branch: no
"High late fee" red flag is produced (the only red flag is the missing
mileage allowance) and the "Reasonable late fee" green flag is appended —
refuting the claim as stated. -/
theorem late_fee_claim_counterexample :
    (fairInputOf noDecode noRecall zeroMonthlyText none).late_fee = some 500
    ∧ (fairInputOf noDecode noRecall zeroMonthlyText none).monthly = some 0
    ∧ (0 : ℚ) * (1 / 2) < 500
    ∧ (analyze_contract_fairness noDecode noRecall zeroMonthlyText none).red_flags.map
        RedFlag.clause = ["Mileage allowance missing"]
    ∧ (analyze_contract_fairness noDecode noRecall zeroMonthlyText none).green_flags.map
        GreenFlag.benefit
        = ["Affordable monthly payment", "Reasonable late fee", "No recalls found"] := by
  refine ⟨by decide, by decide, by norm_num, by decide, by decide⟩

/-! ## Enrichment merge (C3) -/

/-- C3 (code bug).  The regex pass leaves `make` null on a text containing
only a VIN; the NHTSA decode supplies `Make = "HONDA"` and the decoded
dict is stored under `decoded`; yet the returned `make` is still `None`:
the merge uses `dict.setdefault` on keys that were unconditionally
assigned (to `None`) by the regex pass, so — contrary to the source's own
comment "enrich make/model/year with decoded values if missing" — the
decode can never fill a null field. -/
theorem decode_enrichment_cannot_fill_make :
    dGet (leaseHeuristics vinOnlyText) "make" = PyVal.pnone
    ∧ decode_vin_nhtsa hondaDecode "1HGCM82633A004352"
        = some [("Make", .str "HONDA"), ("Model", .str "ACCORD"),
                ("ModelYear", .str "2003"), ("VIN", .str "1HGCM82633A004352")]
    ∧ dGet (extract_full_lease_fields hondaDecode noRecall none vinOnlyText true false)
        "make" = PyVal.pnone
    ∧ dGet (extract_full_lease_fields hondaDecode noRecall none vinOnlyText true false)
        "decoded"
        = PyVal.dict [("Make", .str "HONDA"), ("Model", .str "ACCORD"),
                      ("ModelYear", .str "2003"), ("VIN", .str "1HGCM82633A004352")] :=
  ⟨rfl, rfl, rfl, rfl⟩

end Lease
